import Mathlib

/-!
Verification of the `ec2-images` disk-image assembler (`assemble.py`).

The Python source is shallowly embedded below: pure byte manipulation
becomes functions on `List Nat` (one `Nat` per byte, values < 256),
sequential reads from a file handle become a `FH` record (contents plus
cursor), assertion failures become `Option` results, and procedures whose
only observable behaviour is the sequence of external commands they issue
are embedded as explicit effect traces.  SHA-256 itself (Python `hashlib`)
is an opaque external primitive, so digest-producing code is parametrised
by an arbitrary function `sha256hex : List Nat → String`; theorems then
identify the exact byte stream that is fed to it.
-/

namespace EC2Images

/-! ## Module constants (from `assemble.py`) -/

def SECTOR : Nat := 512

def MB : Nat := 1024 * 1024

def GB : Nat := 1024 * 1024 * 1024

def FOOTER_SECTORS : Nat := 34

def ESP_SECTORS : Nat := 409600

/-! ## File handles

A Python binary file handle opened for reading: the full contents and a
cursor.  `fh.read n` returns the next `min n remaining` bytes and advances
the cursor by the number of bytes actually returned, exactly as `read`
behaves on a regular file. -/

structure FH where
  data : List Nat
  pos : Nat
deriving Repr

def FH.read (fh : FH) (n : Nat) : List Nat × FH :=
  let out := (fh.data.drop fh.pos).take n
  (out, ⟨fh.data, fh.pos + out.length⟩)

theorem FH.read_fst (fh : FH) (n : Nat) :
    (fh.read n).1 = (fh.data.drop fh.pos).take n := rfl

theorem FH.read_snd (fh : FH) (n : Nat) :
    (fh.read n).2 = ⟨fh.data, fh.pos + ((fh.data.drop fh.pos).take n).length⟩ := rfl

/-- Dropping `min n l.length` elements is the same as dropping `n`. -/
theorem drop_min_length {α : Type} (l : List α) (n : Nat) :
    l.drop (min n l.length) = l.drop n := by
  rcases Nat.le_total n l.length with h | h
  · rw [Nat.min_eq_left h]
  · rw [Nat.min_eq_right h, List.drop_length, List.drop_of_length_le h]

/-! ## `hash_pe_coff`

```python
def hash_pe_coff(fh):
    hasher = hashlib.sha256()
    buf = fh.read(216)
    assert buf[152:154] == b'\x0b\x02' # PE32+ magic number
    hasher.update(buf)
    fh.read(4) # Skip the checksum
    hasher.update(fh.read(76))
    assert fh.read(8) == b"\x00" * 8 # Security directory is empty
    while buf := fh.read(4096):
        hasher.update(buf)

    return hasher.hexdigest()
```

The hasher state is embedded as the list of bytes fed to it so far; the
final `hexdigest()` applies the opaque `sha256hex` to that list.  A failed
`assert` is `none`. -/

/-- The trailing `while` loop: feed the rest of the file to the hasher in
4096-byte reads. -/
def hashChunksFH (hasher : List Nat) (fh : FH) : List Nat :=
  let p := fh.read 4096
  if p.1 = [] then hasher
  else hashChunksFH (hasher ++ p.1) p.2
termination_by fh.data.length - fh.pos
decreasing_by
  rename_i h
  rw [FH.read_fst] at h
  have h1 : ((fh.data.drop fh.pos).take 4096).length ≠ 0 := by
    intro hl
    exact h (List.length_eq_zero.mp hl)
  simp only [FH.read_snd, List.length_take, List.length_drop] at h1 ⊢
  omega

theorem hashChunksFH_eq (hasher : List Nat) (fh : FH) :
    hashChunksFH hasher fh = hasher ++ fh.data.drop fh.pos := by
  rw [hashChunksFH]
  split
  · rename_i h
    rw [FH.read_fst] at h
    rcases List.take_eq_nil_iff.mp h with h4 | hnil
    · omega
    · simp [hnil]
  · rename_i h
    rw [hashChunksFH_eq]
    simp only [FH.read_fst, FH.read_snd, List.append_assoc]
    congr 1
    rw [← List.drop_drop, List.length_take, drop_min_length, List.take_append_drop]
termination_by fh.data.length - fh.pos
decreasing_by
  rename_i h
  rw [FH.read_fst] at h
  have h1 : ((fh.data.drop fh.pos).take 4096).length ≠ 0 := by
    intro hl
    exact h (List.length_eq_zero.mp hl)
  simp only [FH.read_snd, List.length_take, List.length_drop] at h1 ⊢
  omega

def hash_pe_coff (sha256hex : List Nat → String) (fh : FH) : Option String :=
  let p1 := fh.read 216
  if (p1.1.drop 152).take 2 = [0x0b, 0x02] then
    let hasher := p1.1
    let p2 := p1.2.read 4
    let p3 := p2.2.read 76
    let hasher := hasher ++ p3.1
    let p4 := p3.2.read 8
    if p4.1 = List.replicate 8 0 then
      some (sha256hex (hashChunksFH hasher p4.2))
    else none
  else none

/-- The byte stream `hash_pe_coff` feeds to SHA-256: the whole file except
the 4-byte checksum at offsets 216–219 and the 8-byte security-directory
entry at offsets 296–303. -/
def pe_hashed_bytes (file : List Nat) : List Nat :=
  file.take 216 ++ (file.drop 220).take 76 ++ file.drop 304

/-- The PE32+ magic check of `hash_pe_coff`, phrased on the file. -/
def pe_magic_ok (file : List Nat) : Prop :=
  (file.drop 152).take 2 = [0x0b, 0x02]

/-- The empty-security-directory check of `hash_pe_coff`, phrased on the
file: the 8 bytes at offsets 296–303 exist and are zero. -/
def pe_security_empty (file : List Nat) : Prop :=
  (file.drop 296).take 8 = List.replicate 8 0

instance (file : List Nat) : Decidable (pe_magic_ok file) := by
  unfold pe_magic_ok; infer_instance

instance (file : List Nat) : Decidable (pe_security_empty file) := by
  unfold pe_security_empty; infer_instance

theorem pe_security_empty_length {file : List Nat} (h : pe_security_empty file) :
    304 ≤ file.length := by
  unfold pe_security_empty at h
  have := congrArg List.length h
  simp only [List.length_take, List.length_drop, List.length_replicate] at this
  omega

/-- Full characterisation of `hash_pe_coff` on a freshly opened file. -/
theorem hash_pe_coff_characterization (sha256hex : List Nat → String)
    (file : List Nat) :
    hash_pe_coff sha256hex ⟨file, 0⟩ =
      if pe_magic_ok file ∧ pe_security_empty file
      then some (sha256hex (pe_hashed_bytes file)) else none := by
  have hmagic : ((file.take 216).drop 152).take 2 = (file.drop 152).take 2 := by
    rw [List.drop_take, List.take_take]
    norm_num
  by_cases hm : pe_magic_ok file
  · have hm' : (file.drop 152).take 2 = [0x0b, 0x02] := hm
    by_cases hs : pe_security_empty file
    · -- both checks pass: the file has at least 304 bytes
      have hs' : (file.drop 296).take 8 = List.replicate 8 0 := hs
      have hlen : 304 ≤ file.length := pe_security_empty_length hs
      rw [if_pos (And.intro hm hs)]
      unfold hash_pe_coff
      simp only [FH.read_fst, FH.read_snd, List.drop_zero, List.length_take,
        List.length_drop]
      rw [hmagic, if_pos hm']
      have e2 : (0 : Nat) + min 216 file.length = 216 := by omega
      simp only [e2]
      have e3 : 216 + min 4 (file.length - 216) = 220 := by omega
      simp only [e3]
      have e4 : 220 + min 76 (file.length - 220) = 296 := by omega
      simp only [e4]
      have e5 : 296 + min 8 (file.length - 296) = 304 := by omega
      simp only [e5]
      rw [if_pos hs', hashChunksFH_eq]
      rfl
    · -- security check fails
      rw [if_neg (fun hand => hs hand.2)]
      unfold hash_pe_coff
      simp only [FH.read_fst, FH.read_snd, List.drop_zero, List.length_take,
        List.length_drop]
      rw [hmagic, if_pos hm']
      rw [if_neg]
      intro hsec
      apply hs
      show (file.drop 296).take 8 = List.replicate 8 0
      -- the cursor before the security read is min 296 file.length
      have e2 : (0 : Nat) + min 216 file.length = min 216 file.length := by omega
      rw [e2] at hsec
      have e3 : min 216 file.length + min 4 (file.length - min 216 file.length) =
          min 220 file.length := by omega
      rw [e3] at hsec
      have e4 : min 220 file.length + min 76 (file.length - min 220 file.length) =
          min 296 file.length := by omega
      rw [e4] at hsec
      rw [drop_min_length] at hsec
      exact hsec
  · -- magic check fails
    rw [if_neg (fun hand => hm hand.1)]
    unfold hash_pe_coff
    simp only [FH.read_fst, List.drop_zero]
    rw [hmagic, if_neg]
    exact fun hc => hm hc

/-- A 304-byte stub file satisfying both `hash_pe_coff` checks: zeros
everywhere except the PE32+ magic at offsets 152–153. -/
def peStubFile : List Nat :=
  List.replicate 152 0 ++ [0x0b, 0x02] ++ List.replicate 150 0

/-- A concrete stand-in for the opaque SHA-256 hex-digest primitive, used
only to instantiate witness statements. -/
def sha256len (l : List Nat) : String := toString l.length

/-- C1: on a stub file whose bytes at offsets 152–153 are the PE32+ magic
`0x0b 0x02` and whose 8-byte security-directory entry at offsets 296–303 is
all zero, `hash_pe_coff` returns the SHA-256 hex digest of exactly the
file's bytes minus the checksum field (216–219) and the security-directory
entry (296–303): header bytes 0–215 first, then 220–295, then everything
from offset 304 to end of file. -/
theorem C1_hash_pe_coff_digest (sha256hex : List Nat → String) (file : List Nat)
    (hm : pe_magic_ok file) (hs : pe_security_empty file) :
    hash_pe_coff sha256hex ⟨file, 0⟩ = some (sha256hex (pe_hashed_bytes file)) := by
  rw [hash_pe_coff_characterization, if_pos (And.intro hm hs)]

theorem C1_hash_pe_coff_digest_witness :
    pe_magic_ok peStubFile ∧ pe_security_empty peStubFile ∧
      hash_pe_coff sha256len ⟨peStubFile, 0⟩ =
        some (sha256len (pe_hashed_bytes peStubFile)) :=
  ⟨by decide, by decide,
    C1_hash_pe_coff_digest sha256len peStubFile (by decide) (by decide)⟩

/-- C2: `hash_pe_coff` fails (an `assert` fires, embedded as `none`) if and
only if the two bytes at offset 152 are not the PE32+ magic or the 8-byte
security-directory entry at offsets 296–303 is not entirely zero; on any
input passing both checks it returns a digest. -/
theorem C2_hash_pe_coff_fails_iff (sha256hex : List Nat → String) (file : List Nat) :
    hash_pe_coff sha256hex ⟨file, 0⟩ = none ↔
      ¬ (pe_magic_ok file ∧ pe_security_empty file) := by
  rw [hash_pe_coff_characterization]
  by_cases h : pe_magic_ok file ∧ pe_security_empty file
  · rw [if_pos h]
    simp [h]
  · rw [if_neg h]
    simp [h]

/-! ## `copy`

```python
def copy(in_fh, out_fh):
    while True:
        data = in_fh.read(SECTOR)
        if len(data) == 0:
            break

        out_fh.write(data)
```

`out` is the byte list written to `out_fh` so far; `copy_writes` records
the individual `write` calls. -/

def copy (in_fh : FH) (out : List Nat) : List Nat :=
  let p := in_fh.read SECTOR
  if p.1.length = 0 then out
  else copy p.2 (out ++ p.1)
termination_by in_fh.data.length - in_fh.pos
decreasing_by
  rename_i h
  rw [FH.read_fst] at h
  simp only [FH.read_snd, SECTOR, List.length_take, List.length_drop] at h ⊢
  omega

/-- The sequence of chunks `copy` passes to `out_fh.write`. -/
def copy_writes (in_fh : FH) : List (List Nat) :=
  let p := in_fh.read SECTOR
  if p.1.length = 0 then []
  else p.1 :: copy_writes p.2
termination_by in_fh.data.length - in_fh.pos
decreasing_by
  rename_i h
  rw [FH.read_fst] at h
  simp only [FH.read_snd, SECTOR, List.length_take, List.length_drop] at h ⊢
  omega

theorem copy_eq (in_fh : FH) (out : List Nat) :
    copy in_fh out = out ++ in_fh.data.drop in_fh.pos := by
  rw [copy]
  split
  · rename_i h
    simp only [FH.read_fst, SECTOR, List.length_take, List.length_drop] at h
    have : in_fh.data.length ≤ in_fh.pos := by omega
    simp [List.drop_of_length_le this]
  · rw [copy_eq]
    simp only [FH.read_fst, FH.read_snd, List.append_assoc]
    congr 1
    rw [← List.drop_drop, List.length_take, drop_min_length, List.take_append_drop]
termination_by in_fh.data.length - in_fh.pos
decreasing_by
  rename_i h
  rw [FH.read_fst] at h
  simp only [FH.read_snd, SECTOR, List.length_take, List.length_drop] at h ⊢
  omega

theorem copy_writes_join (in_fh : FH) :
    (copy_writes in_fh).flatten = in_fh.data.drop in_fh.pos := by
  rw [copy_writes]
  split
  · rename_i h
    simp only [FH.read_fst, SECTOR, List.length_take, List.length_drop] at h
    have : in_fh.data.length ≤ in_fh.pos := by omega
    simp [List.drop_of_length_le this]
  · rw [List.flatten_cons, copy_writes_join]
    simp only [FH.read_fst, FH.read_snd]
    rw [← List.drop_drop, List.length_take, drop_min_length, List.take_append_drop]
termination_by in_fh.data.length - in_fh.pos
decreasing_by
  rename_i h
  rw [FH.read_fst] at h
  simp only [FH.read_snd, SECTOR, List.length_take, List.length_drop] at h ⊢
  omega

theorem copy_writes_chunks (in_fh : FH) :
    ∀ w ∈ copy_writes in_fh, w.length ≤ SECTOR ∧ w.length ≠ 0 := by
  rw [copy_writes]
  split
  · simp
  · rename_i h
    intro w hw
    rcases List.mem_cons.mp hw with rfl | hw2
    · refine ⟨?_, h⟩
      rw [FH.read_fst, List.length_take]
      omega
    · exact copy_writes_chunks _ w hw2
termination_by in_fh.data.length - in_fh.pos
decreasing_by
  rename_i h
  rw [FH.read_fst] at h
  simp only [FH.read_snd, SECTOR, List.length_take, List.length_drop] at h ⊢
  omega

/-- C7: embedding a blob is exactly byte-preserving.  For every blob,
`copy` writes the blob's bytes verbatim and in order (the concatenation of
its writes is the blob), each write is a chunk of at most `SECTOR` bytes
and no empty padding chunk is ever written, and trimming the written
extent to the blob's length reproduces the blob byte-for-byte. -/
theorem C7_copy_byte_preserving (blob : List Nat) :
    copy ⟨blob, 0⟩ [] = blob ∧
      (copy_writes ⟨blob, 0⟩).flatten = blob ∧
      (copy_writes ⟨blob, 0⟩).all
        (fun w => decide (w.length ≤ SECTOR ∧ w.length ≠ 0)) = true ∧
      (copy ⟨blob, 0⟩ []).take blob.length = blob := by
  have h1 : copy ⟨blob, 0⟩ [] = blob := by
    rw [copy_eq]
    simp
  refine ⟨h1, ?_, ?_, ?_⟩
  · rw [copy_writes_join]
    simp
  · rw [List.all_eq_true]
    intro w hw
    exact decide_eq_true (copy_writes_chunks _ w hw)
  · rw [h1, List.take_length]

/-! ## `format_disk`

```python
def format_disk(esp_uuid, root_partuuid, outfile):
    with open(outfile, "wb") as out_fh:
        out_fh.truncate(GB)

    remaining = GB // SECTOR - (2048 + ESP_SECTORS + FOOTER_SECTORS)
    table = [
        "label: gpt",
        "first-lba: 2048",
        f'size={ESP_SECTORS}, uuid={esp_uuid}, type=c12a7328-..., name="EFI System Partition"',
        f'size={remaining}, uuid={root_partuuid}, type=0fc63daf-..., name="State Partition"',
    ]

    run(["sfdisk", "--color=never", outfile], input=...)
```

The sfdisk input is embedded structurally, one `SfdiskEntry` per
`size=..., uuid=..., type=..., name=...` line. -/

structure SfdiskEntry where
  size : Nat
  uuid : String
  ptype : String
  pname : String

def format_disk_remaining : Nat :=
  GB / SECTOR - (2048 + ESP_SECTORS + FOOTER_SECTORS)

def format_disk_entries (esp_uuid root_partuuid : String) : List SfdiskEntry :=
  [⟨ESP_SECTORS, esp_uuid, "c12a7328-f81f-11d2-ba4b-00a0c93ec93b",
    "EFI System Partition"⟩,
   ⟨format_disk_remaining, root_partuuid, "0fc63daf-8483-4772-8e79-3d69d8477de4",
    "State Partition"⟩]

/-- Modelled from the spec: the external partitioner (`sfdisk`, not part of
this repository) places partitions with no explicit start "at `first_lba`
(2048), lay[ing] out partitions in declared order, each consuming its
requested sectors" (§4.3).  Returns (start LBA, length) pairs. -/
def sfdisk_place (first_lba : Nat) : List Nat → List (Nat × Nat)
  | [] => []
  | sz :: rest => (first_lba, sz) :: sfdisk_place (first_lba + sz) rest

def format_disk_partitions (esp_uuid root_partuuid : String) : List (Nat × Nat) :=
  sfdisk_place 2048 ((format_disk_entries esp_uuid root_partuuid).map SfdiskEntry.size)

/-- C3: the partition table produced by `format_disk` satisfies the layout
invariant: consecutive partitions do not overlap and are sorted by starting
LBA, the first partition begins at LBA 2048, and the gap before first-lba
plus all partition extents plus the 34-sector trailing footer fit within
the image's `GB / SECTOR` total sectors, so no data partition covers the
footer. -/
theorem C3_format_disk_layout_invariant (esp_uuid root_partuuid : String) :
    List.Chain' (fun p q : Nat × Nat => p.1 + p.2 ≤ q.1)
        (format_disk_partitions esp_uuid root_partuuid) ∧
      (format_disk_partitions esp_uuid root_partuuid).head?.map Prod.fst =
        some 2048 ∧
      2048 + ((format_disk_partitions esp_uuid root_partuuid).map Prod.snd).sum +
          FOOTER_SECTORS ≤ GB / SECTOR := by
  have hsz : (format_disk_entries esp_uuid root_partuuid).map SfdiskEntry.size =
      [ESP_SECTORS, format_disk_remaining] := rfl
  unfold format_disk_partitions
  rw [hsz]
  refine ⟨?_, ?_, ?_⟩
  · simp only [sfdisk_place]
    exact List.chain'_cons.mpr ⟨by decide, List.chain'_singleton _⟩
  · decide
  · decide

/-- C4: for the 1 GiB image with the 200 MiB (409600-sector) ESP as the
only fixed partition, the "remaining space" partition receives exactly
`image_sectors - first_lba - sum(fixed) - footer_sectors`
= `1 GiB/512 - 2048 - 409600 - 34` sectors. -/
theorem C4_format_disk_remaining_exact (esp_uuid root_partuuid : String) :
    ESP_SECTORS = 409600 ∧ FOOTER_SECTORS = 34 ∧
      format_disk_remaining = GB / SECTOR - 2048 - ESP_SECTORS - FOOTER_SECTORS ∧
      format_disk_remaining = 1024 * 1024 * 1024 / 512 - 2048 - 409600 - 34 ∧
      (format_disk_partitions esp_uuid root_partuuid).map Prod.snd =
        [ESP_SECTORS, format_disk_remaining] := by
  have hsz : (format_disk_entries esp_uuid root_partuuid).map SfdiskEntry.size =
      [ESP_SECTORS, format_disk_remaining] := rfl
  refine ⟨rfl, rfl, by decide, by decide, ?_⟩
  unfold format_disk_partitions
  rw [hsz]
  decide

/-! For C5 the module constant `ESP_SECTORS` is generalised to a parameter
so that the behaviour of `format_disk` on an over-full requirement set can
be stated; Python's unbounded integer subtraction is `Int`.  The observable
behaviour of `format_disk` is its effect trace on the target file: it first
opens the target with mode `"wb"` and truncates it to `GB` bytes, and only
then invokes `sfdisk` with the computed sizes. -/

def format_disk_remaining_gen (esp_sectors : Nat) : Int :=
  ((GB / SECTOR : Nat) : Int) - ((2048 + esp_sectors + FOOTER_SECTORS : Nat) : Int)

inductive DiskEffect where
  | truncate (size : Nat)
  | sfdisk (sizes : List Int)
deriving DecidableEq

def format_disk_effects (esp_sectors : Nat) : List DiskEffect :=
  [DiskEffect.truncate GB,
   DiskEffect.sfdisk [(esp_sectors : Int), format_disk_remaining_gen esp_sectors]]

/-- C5 counterexample: take fixed partition sizes summing to more than the
1 GiB image (an ESP of 4194304 sectors).  `format_disk` computes a negative
"remaining" size, so the failing step is the `sfdisk` invocation — there is
no `LayoutError` and no pre-I/O validation — and that failing step comes
only *after* the target file has already been truncated to its full `GB`
size, contradicting "no bytes have been written to the target image file". -/
theorem C5_counterexample_io_before_failure :
    GB / SECTOR < 2048 + 4194304 + FOOTER_SECTORS ∧
      format_disk_remaining_gen 4194304 < 0 ∧
      (format_disk_effects 4194304).head? = some (DiskEffect.truncate GB) ∧
      (format_disk_effects 4194304).get? 1 =
        some (DiskEffect.sfdisk [(4194304 : Int),
          format_disk_remaining_gen 4194304]) :=
  ⟨by decide, by decide, rfl, rfl⟩

/-- C5 amended: for every fixed ESP size whose layout does not fit the
image (`GB / SECTOR < 2048 + esp_sectors + FOOTER_SECTORS`), `format_disk`
computes a negative remaining size, which makes its second step — the
external `sfdisk` run — the failing one; no `LayoutError` type exists, and
the target file has already been created and truncated to the full image
size by the first step, before the failure. -/
theorem C5_overfull_fails_only_after_truncate (esp_sectors : Nat)
    (h : GB / SECTOR < 2048 + esp_sectors + FOOTER_SECTORS) :
    format_disk_remaining_gen esp_sectors < 0 ∧
      format_disk_effects esp_sectors =
        [DiskEffect.truncate GB,
         DiskEffect.sfdisk [(esp_sectors : Int),
           format_disk_remaining_gen esp_sectors]] := by
  refine ⟨?_, rfl⟩
  unfold format_disk_remaining_gen
  omega

theorem C5_overfull_fails_only_after_truncate_witness :
    (GB / SECTOR < 2048 + 4500000 + FOOTER_SECTORS) ∧
      format_disk_remaining_gen 4500000 < 0 :=
  ⟨by decide, (C5_overfull_fails_only_after_truncate 4500000 (by decide)).1⟩

/-! ## `attach_image_loopback`

```python
@contextmanager
def attach_image_loopback(filename):
    c = run(["losetup", "--find", "--show", "--partscan", filename], stdout=PIPE)
    loopdev = c.stdout.decode("utf-8").strip()

    try:
        yield loopdev
    finally:
        run(["losetup", "--detach", loopdev])
```

A computation is embedded as the list of external commands it runs plus
the exception (if any) escaping it; `loopdev` is the device name resolved
by a successful `losetup --find`.  `tryFinally` is Python's `try/finally`:
the finaliser's commands run after the body's on every exit path, and the
body's exception, if any, then propagates. -/

inductive LoopCmd where
  | losetupAttach (filename : String)
  | losetupDetach (dev : String)
  | other (description : String)
deriving DecidableEq

def tryFinally (body : List LoopCmd × Option String) (fin : List LoopCmd) :
    List LoopCmd × Option String :=
  (body.1 ++ fin, body.2)

def attach_image_loopback (filename loopdev : String)
    (body : List LoopCmd × Option String) : List LoopCmd × Option String :=
  let acquired := [LoopCmd.losetupAttach filename]
  let r := tryFinally body [LoopCmd.losetupDetach loopdev]
  (acquired ++ r.1, r.2)

/-- C6: once acquisition succeeds, the loop-device scope detaches the
resolved device exactly once on every exit path: for any enclosed body
(any commands, and any outcome — `body.2 = none` for normal completion or
`some e` for a raised fault, which is re-propagated unchanged), the full
trace contains exactly one `losetup --detach` of the device, provided the
body itself does not detach it. -/
theorem C6_loopback_release_exactly_once (filename loopdev : String)
    (body : List LoopCmd × Option String)
    (hbody : body.1.count (LoopCmd.losetupDetach loopdev) = 0) :
    (attach_image_loopback filename loopdev body).1.count
        (LoopCmd.losetupDetach loopdev) = 1 ∧
      (attach_image_loopback filename loopdev body).2 = body.2 := by
  refine ⟨?_, rfl⟩
  have h1 : (attach_image_loopback filename loopdev body).1 =
      LoopCmd.losetupAttach filename ::
        (body.1 ++ [LoopCmd.losetupDetach loopdev]) := rfl
  have hne : LoopCmd.losetupDetach loopdev ≠ LoopCmd.losetupAttach filename :=
    fun hc => LoopCmd.noConfusion hc
  rw [h1, List.count_cons_of_ne hne, List.count_append, hbody]
  simp

theorem C6_loopback_release_exactly_once_witness :
    ([LoopCmd.other "mkfs.vfat"] : List LoopCmd).count
        (LoopCmd.losetupDetach "/dev/loop0") = 0 ∧
      (attach_image_loopback "image.raw" "/dev/loop0"
          ([LoopCmd.other "mkfs.vfat"], some "CalledProcessError")).1.count
        (LoopCmd.losetupDetach "/dev/loop0") = 1 ∧
      (attach_image_loopback "image.raw" "/dev/loop0"
          ([LoopCmd.other "mkfs.vfat"], some "CalledProcessError")).2 =
        some "CalledProcessError" :=
  ⟨by decide,
    (C6_loopback_release_exactly_once "image.raw" "/dev/loop0"
      ([LoopCmd.other "mkfs.vfat"], some "CalledProcessError") (by decide)).1,
    (C6_loopback_release_exactly_once "image.raw" "/dev/loop0"
      ([LoopCmd.other "mkfs.vfat"], some "CalledProcessError") (by decide)).2⟩

/-! ## The measurement line printed by `set_up_boot`

```python
    with open("boot/ubuntu.efi", "rb") as fh:
        digest = hash_pe_coff(fh)
    print(f"Expected TPM binary hash: {digest}")
```

and, elsewhere in the file,

```python
def print_sha256(filename):
    blob = Path(filename).read_bytes()
    digest = hashlib.sha256(blob).hexdigest()
    print(f"sha256({repr(filename)}): {digest}")
```

`print_sha256` is defined but has no caller anywhere in `assemble.py`
(`main` invokes `format_disk`, `set_up_boot` and `compress_product`); the
only digest line the program prints after the boot measurement is the
`Expected TPM binary hash:` one. -/

def tpm_hash_line (digest : String) : String :=
  "Expected TPM binary hash: " ++ digest

/-- Python `repr` of a path string without quotes or escapes in it. -/
def pyRepr (s : String) : String := "'" ++ s ++ "'"

/-- The line `print_sha256` would print, were it ever called. -/
def print_sha256_line (filename digest : String) : String :=
  "sha256(" ++ pyRepr filename ++ "): " ++ digest

/-- The single stdout line `set_up_boot` emits after computing the boot
measurement of the assembled `boot/ubuntu.efi` (given as its byte list):
`none` if `hash_pe_coff` raises, the formatted line otherwise. -/
def set_up_boot_measure_line (sha256hex : List Nat → String) (efi : List Nat) :
    Option String :=
  (hash_pe_coff sha256hex ⟨efi, 0⟩).map tpm_hash_line

/-- C8 counterexample: on a stub file passing both PE checks, the line the
program emits after computing the boot measurement is
`Expected TPM binary hash: <hex>` — its first seven characters are not
`sha256(`, so it is not of the form `sha256(<path>): <hex>`. -/
theorem C8_counterexample_line_not_sha256_form :
    set_up_boot_measure_line sha256len peStubFile =
        some (tpm_hash_line (sha256len (pe_hashed_bytes peStubFile))) ∧
      (tpm_hash_line (sha256len (pe_hashed_bytes peStubFile))).data.take 7 ≠
        "sha256(".data := by
  have hc : pe_magic_ok peStubFile ∧ pe_security_empty peStubFile :=
    ⟨by decide, by decide⟩
  constructor
  · unfold set_up_boot_measure_line
    rw [hash_pe_coff_characterization, if_pos hc]
    rfl
  · unfold tpm_hash_line
    rw [String.data_append, List.take_append_eq_append_take]
    norm_num
    decide

/-- C8 amended: after computing the boot measurement, the program emits a
single line of the form `Expected TPM binary hash: <hex>` carrying the
measurement digest (the checksum-excluding PE digest, not a whole-file
content digest); the line is not of the claimed `sha256(<path>): <hex>`
form — that format exists only in `print_sha256`, which is never called. -/
theorem C8_measurement_line_format (sha256hex : List Nat → String)
    (efi : List Nat) (hm : pe_magic_ok efi) (hs : pe_security_empty efi) :
    set_up_boot_measure_line sha256hex efi =
        some ("Expected TPM binary hash: " ++ sha256hex (pe_hashed_bytes efi)) ∧
      ("Expected TPM binary hash: " ++ sha256hex (pe_hashed_bytes efi)).data.take 7 ≠
        "sha256(".data := by
  constructor
  · unfold set_up_boot_measure_line
    rw [hash_pe_coff_characterization, if_pos (And.intro hm hs)]
    rfl
  · rw [String.data_append, List.take_append_eq_append_take]
    norm_num
    decide

theorem C8_measurement_line_format_witness :
    pe_magic_ok peStubFile ∧ pe_security_empty peStubFile ∧
      set_up_boot_measure_line sha256len peStubFile =
        some ("Expected TPM binary hash: " ++ sha256len (pe_hashed_bytes peStubFile)) :=
  ⟨by decide, by decide,
    (C8_measurement_line_format sha256len peStubFile (by decide) (by decide)).1⟩

/-! ## The first-boot overlay script emitted by `configure_initramfs`

```python
    overlay_script =dd("""\
    #!/bin/sh -e
    ...
    mkdir -p /run/overlay
    cd /run/overlay

    mkdir host immutable-root
    mount /dev/disk/by-partuuid/""" + root_partuuid + """ host
    mount -o move /root immutable-root
    mkdir -p host/state host/work
    mount -t overlay -o lowerdir=immutable-root,upperdir=host/state,workdir=host/work none /root
    """)
```

The script is embedded structurally, one constructor per effective command
(the prereq boilerplate at the top of the script has no filesystem
effect).  Shell/kernel semantics for these commands are external to the
repository; `execCmd` below models them. -/

inductive ShellCmd where
  | mkdirP (ds : List String)
  | mkdirPlain (ds : List String)
  | cd (dir : String)
  | mountDev (device target : String)
  | mountMove (src target : String)
  | mountOverlay (lower upper work target : String)
deriving DecidableEq

def overlay_script (root_partuuid : String) : List ShellCmd :=
  [ShellCmd.mkdirP ["/run/overlay"],
   ShellCmd.cd "/run/overlay",
   ShellCmd.mkdirPlain ["host", "immutable-root"],
   ShellCmd.mountDev ("/dev/disk/by-partuuid/" ++ root_partuuid) "host",
   ShellCmd.mountMove "/root" "immutable-root",
   ShellCmd.mkdirP ["host/state", "host/work"],
   ShellCmd.mountOverlay "immutable-root" "host/state" "host/work" "/root"]

/-- Early-boot filesystem state: current directory and the set of existing
directories (absolute paths). -/
structure BootFS where
  cwd : String
  dirs : List String
deriving DecidableEq

def resolvePath (cwd p : String) : String :=
  if p.data.head? = some '/' then p else cwd ++ "/" ++ p

/-- `child` lies strictly below directory `parent`. -/
def isUnder (parent child : String) : Bool :=
  (parent.data ++ ['/']).isPrefixOf child.data

def mkdirOne (fs : BootFS) (d : String) : BootFS :=
  let rp := resolvePath fs.cwd d
  if fs.dirs.contains rp then fs else ⟨fs.cwd, fs.dirs ++ [rp]⟩

/-- Modelled from the spec: semantics of the shell commands the script
uses, which are external tools, not repository code.  `mkdir -p` succeeds
whether or not the directory exists; plain `mkdir` fails on an existing
directory; `cd` and every `mount` require their directory arguments to
exist; mounting a block device over a directory covers it with the
freshly formatted, initially empty filesystem of that device (§4.6: the
persistent partition may be freshly formatted, with no contents). -/
def execCmd (fs : BootFS) : ShellCmd → Option BootFS
  | ShellCmd.mkdirP ds => some (ds.foldl mkdirOne fs)
  | ShellCmd.mkdirPlain ds =>
      if ds.all (fun d => !(fs.dirs.contains (resolvePath fs.cwd d))) then
        some (ds.foldl mkdirOne fs)
      else none
  | ShellCmd.cd d =>
      let rp := resolvePath fs.cwd d
      if fs.dirs.contains rp then some ⟨rp, fs.dirs⟩ else none
  | ShellCmd.mountDev _ target =>
      let rt := resolvePath fs.cwd target
      if fs.dirs.contains rt then
        some ⟨fs.cwd, fs.dirs.filter (fun d => !(isUnder rt d))⟩
      else none
  | ShellCmd.mountMove src target =>
      if fs.dirs.contains (resolvePath fs.cwd src) &&
          fs.dirs.contains (resolvePath fs.cwd target) then some fs else none
  | ShellCmd.mountOverlay lower upper work target =>
      if fs.dirs.contains (resolvePath fs.cwd lower) &&
          fs.dirs.contains (resolvePath fs.cwd upper) &&
          fs.dirs.contains (resolvePath fs.cwd work) &&
          fs.dirs.contains (resolvePath fs.cwd target) then some fs else none

def execCmds : List ShellCmd → BootFS → Option BootFS
  | [], fs => some fs
  | c :: rest, fs =>
      match execCmd fs c with
      | some fs2 => execCmds rest fs2
      | none => none

/-- Early-boot state before the script runs: `/run` is a fresh tmpfs and
`/root` holds the already-mounted squashfs root. -/
def initBootFS : BootFS := ⟨"/", ["/", "/run", "/root"]⟩

/-- The block devices the script passes to `mount`. -/
def mountDevices (cmds : List ShellCmd) : List String :=
  cmds.filterMap (fun c =>
    match c with
    | ShellCmd.mountDev dev _ => some dev
    | _ => none)

/-- C9: for every root partition GUID, the emitted first-boot script
mounts exactly one block device, namely `/dev/disk/by-partuuid/<guid>` —
the partition is identified by GUID, never by a raw enumeration path —
and the script runs to completion on a freshly formatted, empty persistent
partition, with the overlay upper (`host/state`) and work (`host/work`)
directories created under `/run/overlay` by `mkdir -p`. -/
theorem C9_overlay_mounts_by_partuuid (root_partuuid : String) :
    mountDevices (overlay_script root_partuuid) =
        ["/dev/disk/by-partuuid/" ++ root_partuuid] ∧
      execCmds (overlay_script root_partuuid) initBootFS =
        some ⟨"/run/overlay",
          ["/", "/run", "/root", "/run/overlay", "/run/overlay/host",
           "/run/overlay/immutable-root", "/run/overlay/host/state",
           "/run/overlay/host/work"]⟩ := by
  exact ⟨rfl, rfl⟩

/-! ## `change_passwords`

```python
def change_passwords(image):
    new_lines = []
    with open(image + "/etc/shadow", "r+") as shadow:
        for entry in shadow:
            fields = entry.split(":")
            if fields[0] == "root":
                fields[1] = ""

            new_lines.append(':'.join(fields))

        shadow.seek(0)
        shadow.truncate()
        for line in new_lines:
            shadow.write(line)
```

Entries are the file's lines (with their trailing newline), represented as
`List Char`.  `splitOnColon` is Python `str.split(":")`, `joinColon` is
`':'.join`; assigning `fields[1]` on a list with fewer than two elements
is an `IndexError`, embedded as `none`. -/

def splitOnColon : List Char → List (List Char)
  | [] => [[]]
  | c :: rest =>
    let r := splitOnColon rest
    if c = ':' then [] :: r
    else (c :: r.headD []) :: r.tail

def joinColon : List (List Char) → List Char
  | [] => []
  | [f] => f
  | f :: fs => f ++ ':' :: joinColon fs

def rootName : List Char := "root".data

def change_entry (entry : List Char) : Option (List Char) :=
  let fields := splitOnColon entry
  if fields.head? = some rootName then
    if 2 ≤ fields.length then some (joinColon (fields.set 1 []))
    else none
  else some (joinColon fields)

def change_passwords (entries : List (List Char)) : Option (List (List Char)) :=
  entries.mapM change_entry

theorem joinColon_cons_cons (f g : List Char) (t : List (List Char)) :
    joinColon (f :: g :: t) = f ++ ':' :: joinColon (g :: t) := rfl

theorem splitOnColon_ne_nil (l : List Char) : splitOnColon l ≠ [] := by
  cases l with
  | nil => simp [splitOnColon]
  | cons c rest =>
    simp only [splitOnColon]
    split <;> simp

/-- `':'.join` undoes `split(":")`. -/
theorem joinColon_splitOnColon (l : List Char) :
    joinColon (splitOnColon l) = l := by
  induction l with
  | nil => rfl
  | cons c rest ih =>
    rcases h : splitOnColon rest with _ | ⟨f, fs⟩
    · exact absurd h (splitOnColon_ne_nil rest)
    · rw [h] at ih
      simp only [splitOnColon, h, List.headD_cons, List.tail_cons]
      by_cases hc : c = ':'
      · subst hc
        rw [if_pos rfl, joinColon_cons_cons, ih]
        rfl
      · rw [if_neg hc]
        cases fs with
        | nil =>
          simp only [joinColon] at ih ⊢
          rw [ih]
        | cons g t =>
          rw [joinColon_cons_cons] at ih ⊢
          simp only [List.cons_append, ih]

theorem splitOnColon_no_colon (l : List Char) :
    ∀ f ∈ splitOnColon l, ':' ∉ f := by
  induction l with
  | nil =>
    intro f hf
    simp only [splitOnColon, List.mem_singleton] at hf
    simp [hf]
  | cons c rest ih =>
    intro f hf
    rcases h : splitOnColon rest with _ | ⟨g, gs⟩
    · exact absurd h (splitOnColon_ne_nil rest)
    · simp only [splitOnColon, h, List.headD_cons, List.tail_cons] at hf
      have ih' : ∀ x ∈ g :: gs, ':' ∉ x := fun x hx => ih x (h ▸ hx)
      by_cases hc : c = ':'
      · subst hc
        rw [if_pos rfl] at hf
        rcases List.mem_cons.mp hf with rfl | hf2
        · simp
        · exact ih' f hf2
      · rw [if_neg hc] at hf
        rcases List.mem_cons.mp hf with rfl | hf2
        · intro hmem
          rcases List.mem_cons.mp hmem with hceq | hg
          · exact hc hceq.symm
          · exact ih' g (List.mem_cons_self g gs) hg
        · exact ih' f (List.mem_cons_of_mem g hf2)

theorem splitOnColon_of_no_colon (f : List Char) (hf : ':' ∉ f) :
    splitOnColon f = [f] := by
  induction f with
  | nil => rfl
  | cons c f' ih =>
    have hc : ¬ c = ':' := fun hceq => hf (hceq ▸ List.mem_cons_self c f')
    have hf' : ':' ∉ f' := fun hm => hf (List.mem_cons_of_mem c hm)
    simp only [splitOnColon, ih hf', List.headD_cons, List.tail_cons, if_neg hc]

theorem splitOnColon_append_colon (f t : List Char) (hf : ':' ∉ f) :
    splitOnColon (f ++ ':' :: t) = f :: splitOnColon t := by
  induction f with
  | nil => simp [splitOnColon]
  | cons c f' ih =>
    have hc : ¬ c = ':' := fun hceq => hf (hceq ▸ List.mem_cons_self c f')
    have hf' : ':' ∉ f' := fun hm => hf (List.mem_cons_of_mem c hm)
    simp only [List.cons_append, splitOnColon, List.append_eq, if_neg hc]
    rw [ih hf']
    simp only [List.headD_cons, List.tail_cons]

/-- `split(":")` undoes `':'.join` on a nonempty field list whose fields
contain no colon. -/
theorem splitOnColon_joinColon (fs : List (List Char)) (hne : fs ≠ [])
    (h : ∀ f ∈ fs, ':' ∉ f) : splitOnColon (joinColon fs) = fs := by
  induction fs with
  | nil => exact absurd rfl hne
  | cons f gs ih =>
    cases gs with
    | nil =>
      simp only [joinColon]
      exact splitOnColon_of_no_colon f (h f (List.mem_cons_self f []))
    | cons g t =>
      rw [joinColon_cons_cons,
        splitOnColon_append_colon f _ (h f (List.mem_cons_self f (g :: t))),
        ih (by simp) (fun f' hf' => h f' (List.mem_cons_of_mem f hf'))]

theorem change_entry_non_root (entry : List Char)
    (h : (splitOnColon entry).head? ≠ some rootName) :
    change_entry entry = some entry := by
  unfold change_entry
  rw [if_neg h, joinColon_splitOnColon]

theorem change_entry_root (entry : List Char)
    (hr : (splitOnColon entry).head? = some rootName)
    (hlen : 2 ≤ (splitOnColon entry).length) :
    change_entry entry = some (joinColon ((splitOnColon entry).set 1 [])) ∧
      splitOnColon (joinColon ((splitOnColon entry).set 1 [])) =
        (splitOnColon entry).set 1 [] := by
  constructor
  · unfold change_entry
    rw [if_pos hr, if_pos hlen]
  · apply splitOnColon_joinColon
    · intro hnil
      have := congrArg List.length hnil
      simp only [List.length_set, List.length_nil] at this
      omega
    · intro f hf
      rcases List.mem_or_eq_of_mem_set hf with hmem | rfl
      · exact splitOnColon_no_colon entry f hmem
      · simp

/-- The rewritten form of one shadow entry. -/
def changed_entry (e : List Char) : List Char :=
  if (splitOnColon e).head? = some rootName
  then joinColon ((splitOnColon e).set 1 []) else e

/-- C10: provided every entry whose first colon-separated field is `root`
has at least two fields (true of any well-formed shadow file),
`change_passwords` rewrites the file so that entries are kept in order and
count, every entry whose user name is not `root` is reproduced
byte-for-byte, and a `root` entry is rewritten so that its field list is
the original one with exactly the second field (the password) replaced by
the empty string. -/
theorem C10_change_passwords_only_root_password (entries : List (List Char))
    (hwf : ∀ e ∈ entries, (splitOnColon e).head? = some rootName →
      2 ≤ (splitOnColon e).length) :
    change_passwords entries = some (entries.map changed_entry) ∧
      (∀ e ∈ entries, (splitOnColon e).head? ≠ some rootName →
        changed_entry e = e) ∧
      (∀ e ∈ entries, (splitOnColon e).head? = some rootName →
        splitOnColon (changed_entry e) = (splitOnColon e).set 1 []) := by
  refine ⟨?_, ?_, ?_⟩
  · induction entries with
    | nil => rfl
    | cons e rest ih =>
      have hrest := ih (fun e' he' hr => hwf e' (List.mem_cons_of_mem e he') hr)
      unfold change_passwords at hrest ⊢
      rw [List.mapM_cons, hrest]
      by_cases hr : (splitOnColon e).head? = some rootName
      · rw [(change_entry_root e hr (hwf e (List.mem_cons_self e rest) hr)).1]
        simp [changed_entry, hr]
      · rw [change_entry_non_root e hr]
        simp [changed_entry, hr]
  · intro e _ hne
    unfold changed_entry
    rw [if_neg hne]
  · intro e he hr
    unfold changed_entry
    rw [if_pos hr]
    exact (change_entry_root e hr (hwf e he hr)).2

/-- A well-formed two-entry shadow file: a root entry with a password hash
and an ordinary entry. -/
def shadowSample : List (List Char) :=
  [("root:$6$abc:19000:0:99999:7:::\n").data,
   ("daemon:*:19235:0:99999:7:::\n").data]

theorem C10_change_passwords_only_root_password_witness :
    (∀ e ∈ shadowSample, (splitOnColon e).head? = some rootName →
        2 ≤ (splitOnColon e).length) ∧
      change_passwords shadowSample = some (shadowSample.map changed_entry) :=
  ⟨by decide,
    (C10_change_passwords_only_root_password shadowSample (by decide)).1⟩

end EC2Images
